import Mathlib

/- Shallow embedding of the caption-creator core:
   word grouping and text width (utils.py), crop planning
   (aspect_validator.py), line wrapping, word cleaning and stroke-mask
   morphology (caption_creator.py), and safe-zone placement (safe_zone.py).
   Python floats are modelled as rationals, Python int() truncation as pyInt,
   Python floor division as Int.fdiv, and Python string methods as
   executable character-list operations. -/

/-- Python int() conversion applied to a rational: truncation toward zero. -/
def pyInt (q : ℚ) : ℤ := if 0 ≤ q then ⌊q⌋ else -⌊-q⌋

/-- Python str.upper: upper-case every character. -/
def pyUpper (s : String) : String := String.mk (s.data.map Char.toUpper)

/-- Python str.strip with no argument: drop leading and trailing whitespace. -/
def pyStrip (s : String) : String :=
  String.mk (((s.data.dropWhile Char.isWhitespace).reverse.dropWhile
    Char.isWhitespace).reverse)

/-- Python str.strip with a character-set argument: drop leading and trailing
    characters belonging to the set. -/
def pyStripChars (chars : List Char) (s : String) : String :=
  String.mk (((s.data.dropWhile (· ∈ chars)).reverse.dropWhile
    (· ∈ chars)).reverse)

/-- Glyph metrics of a loaded font: text to pixel width (PIL font.getlength). -/
abbrev Font : Type := String → ℚ

/-- Font loading environment: ImageFont.truetype for a given path and size
    either yields a font or raises IOError (modelled as none). -/
abbrev FontEnv : Type := String → ℚ → Option Font

/-- Embedding of utils.get_text_width (utils.py lines 141 to 149): the try
    branch measures with the loaded font, the except IOError branch returns
    the rough estimate len(text) times font_size times 0.6. -/
def get_text_width (env : FontEnv) (text : String) (font_path : String)
    (font_size : ℚ) : ℚ :=
  match env font_path font_size with
  | some font => font text
  | none => (text.length : ℚ) * font_size * (6/10)

/-- Modelled from the spec: the FontUnavailable behaviour the spec prescribes
    for width measurement, namely that a failed font load surfaces an error
    to the caller instead of producing a width value. -/
def get_text_width_spec (env : FontEnv) (text : String) (font_path : String)
    (font_size : ℚ) : Except String ℚ :=
  match env font_path font_size with
  | some font => Except.ok (font text)
  | none => Except.error "FontUnavailable"

/-- One word-timestamp record: the keys "word", "start", "end" of the Python
    dict consumed by group_words_by_time_and_width. -/
structure WordRec where
  word : String
  start : ℚ
  end_ : ℚ
deriving DecidableEq, Repr, Inhabited

/-- One caption group dict as built in utils.py lines 195 to 200. -/
structure CaptionGroup where
  text : String
  words : List WordRec
  start : ℚ
  end_ : ℚ
deriving DecidableEq, Repr, Inhabited

/-- The group dict emitted for a finished current_group (utils.py lines 191
    to 200 and 204 to 214): text is the space join of the words, start is the
    first word start, end is the last word end. -/
def mkGroup (g : List WordRec) : CaptionGroup :=
  { text := String.intercalate " " (g.map (·.word))
    words := g
    start := (g.headD default).start
    end_ := (g.getLastD default).end_ }

/-- The scalar and font parameters of utils.group_words_by_time_and_width. -/
structure GroupParams where
  env : FontEnv
  max_gap_seconds : ℚ
  max_width_px : ℚ
  font_path : String
  font_size : ℚ
  max_words_per_group : ℕ
  max_caption_duration_seconds : ℚ

/-- The for-loop of utils.group_words_by_time_and_width (lines 166 to 214)
    plus the final flush: first component is caption_groups, second is the
    post-run state of the input records (the loop assigns the processed word
    back into each non-discarded record in place), third is the list of texts
    passed to get_text_width, in call order. -/
def groupLoop (P : GroupParams) (ws : List WordRec) (groups : List CaptionGroup)
    (cur : List WordRec) : List CaptionGroup × List WordRec × List String :=
  match ws with
  | [] => (if cur = [] then groups else groups ++ [mkGroup cur], [], [])
  | w :: rest =>
    let processed := pyUpper (pyStrip w.word)
    if processed = "" then
      let r := groupLoop P rest groups cur
      (r.1, w :: r.2.1, r.2.2)
    else
      let w' : WordRec := { w with word := processed }
      if cur = [] then
        let r := groupLoop P rest groups [w']
        (r.1, w' :: r.2.1, r.2.2)
      else
        let time_gap := w.start - (cur.getLastD default).end_
        let total_time := (cur.getLastD default).end_ - (cur.headD default).start
        let potential_text := String.intercalate " " (cur.map (·.word) ++ [processed])
        let potential_width := get_text_width P.env potential_text P.font_path P.font_size
        if cur.length < P.max_words_per_group ∧ time_gap ≤ P.max_gap_seconds ∧
            potential_width ≤ P.max_width_px ∧
            total_time ≤ P.max_caption_duration_seconds then
          let r := groupLoop P rest groups (cur ++ [w'])
          (r.1, w' :: r.2.1, potential_text :: r.2.2)
        else
          let r := groupLoop P rest (groups ++ [mkGroup cur]) [w']
          (r.1, w' :: r.2.1, potential_text :: r.2.2)

/-- Embedding of utils.group_words_by_time_and_width: the emitted caption
    groups (empty input returns the empty list up front, line 160). -/
def group_words_by_time_and_width (P : GroupParams) (word_timestamps : List WordRec) :
    List CaptionGroup :=
  if word_timestamps = [] then [] else (groupLoop P word_timestamps [] []).1

/-- State of the input records after group_words_by_time_and_width has run,
    reflecting the in-place assignment at utils.py line 171. -/
def group_words_post (P : GroupParams) (word_timestamps : List WordRec) :
    List WordRec :=
  if word_timestamps = [] then [] else (groupLoop P word_timestamps [] []).2.1

/-- Texts measured through get_text_width during a run of
    group_words_by_time_and_width, in call order (utils.py lines 181 to 182). -/
def group_words_measured (P : GroupParams) (word_timestamps : List WordRec) :
    List String :=
  if word_timestamps = [] then [] else (groupLoop P word_timestamps [] []).2.2

/-- Embedding of CaptionCreator._clean_word (caption_creator.py lines 197 to
    198): strip the characters . , ! ? ; : " from both ends, then upper-case. -/
def clean_word (w : String) : String :=
  pyUpper (pyStripChars ['.', ',', '!', '?', ';', ':', '\"'] w)

/-- One entry of a wrapped line: the (word, color, word_width) triple appended
    to current_line in caption_creator.py line 241. -/
structure LineWord where
  word : String
  color : String
  width : ℚ
deriving DecidableEq, Repr

/-- The greedy line-wrapping loop of CaptionCreator._create_text_clip
    (caption_creator.py lines 233 to 245): wraps (word, color) caption parts
    into (line, line_width) pairs and accumulates total_height. -/
def wrapLoop (font : Font) (space_width caption_width line_height line_spacing : ℚ)
    (parts : List (String × String)) (lines : List (List LineWord × ℚ))
    (total_height : ℚ) (current_line : List LineWord) (current_line_width : ℚ) :
    List (List LineWord × ℚ) × ℚ :=
  match parts with
  | [] =>
    if current_line = [] then (lines, total_height)
    else (lines ++ [(current_line, current_line_width - space_width)],
      total_height + line_height)
  | (word, color) :: rest =>
    let word_width := font word
    if current_line ≠ [] ∧ current_line_width + word_width > caption_width then
      wrapLoop font space_width caption_width line_height line_spacing rest
        (lines ++ [(current_line, current_line_width - space_width)])
        (total_height + line_height + line_spacing)
        [⟨word, color, word_width⟩] (word_width + space_width)
    else
      wrapLoop font space_width caption_width line_height line_spacing rest
        lines total_height (current_line ++ [⟨word, color, word_width⟩])
        (current_line_width + word_width + space_width)

/-- The wrapping pass started from the empty layout state, as in
    caption_creator.py line 234. -/
def wrap_lines (font : Font) (space_width caption_width line_height line_spacing : ℚ)
    (parts : List (String × String)) : List (List LineWord × ℚ) × ℚ :=
  wrapLoop font space_width caption_width line_height line_spacing parts [] 0 [] 0

/-- Embedding of AspectRatioValidator.calculate_crop_dimensions
    (aspect_validator.py lines 47 to 68). -/
def calculate_crop_dimensions (width height : ℤ) (target : ℚ) : ℤ × ℤ × ℤ × ℤ :=
  if (width : ℚ) / (height : ℚ) > target then
    let new_width := pyInt ((height : ℚ) * target)
    let x1 := (width - new_width).fdiv 2
    (x1, 0, x1 + new_width, height)
  else
    let new_height := pyInt ((width : ℚ) / target)
    let y1 := (height - new_height).fdiv 2
    (0, y1, width, y1 + new_height)

/-- Safe-zone reference constants of safe_zone.py lines 6 to 14. -/
def STANDARD_WIDTH : ℤ := 1080

/-- Reference height of the safe-zone table. -/
def STANDARD_HEIGHT : ℤ := 1920

/-- Reference top margin. -/
def TOP_SAFE_ZONE : ℤ := 252

/-- Reference bottom margin. -/
def BOTTOM_SAFE_ZONE : ℤ := 756

/-- Reference left margin. -/
def LEFT_SAFE_ZONE : ℤ := 120

/-- Reference right margin. -/
def RIGHT_SAFE_ZONE : ℤ := 240

/-- Embedding of SafeZone.get_caption_position (safe_zone.py lines 16 to 41). -/
def get_caption_position (video_width video_height caption_height : ℤ)
    (position : String) (padding : ℤ) : String × ℤ :=
  let scale_y : ℚ := (video_height : ℚ) / (STANDARD_HEIGHT : ℚ)
  let top_safe := pyInt ((TOP_SAFE_ZONE : ℚ) * scale_y)
  let bottom_safe := pyInt ((BOTTOM_SAFE_ZONE : ℚ) * scale_y)
  if position = "top" then
    ("center", top_safe + padding)
  else if position = "center" then
    let safe_area_height := video_height - top_safe - bottom_safe
    ("center", top_safe + (safe_area_height - caption_height).fdiv 2)
  else
    ("center", video_height - bottom_safe - caption_height - padding)

/-- Result dict of SafeZone.get_safe_area_bounds. -/
structure SafeAreaBounds where
  top : ℤ
  bottom : ℤ
  left : ℤ
  right : ℤ
  width : ℤ
  height : ℤ
deriving DecidableEq, Repr

/-- Embedding of SafeZone.get_safe_area_bounds (safe_zone.py lines 43 to 63). -/
def get_safe_area_bounds (video_width video_height : ℤ) : SafeAreaBounds :=
  let scale_y : ℚ := (video_height : ℚ) / (STANDARD_HEIGHT : ℚ)
  let scale_x : ℚ := (video_width : ℚ) / (STANDARD_WIDTH : ℚ)
  let top := pyInt ((TOP_SAFE_ZONE : ℚ) * scale_y)
  let bottom := video_height - pyInt ((BOTTOM_SAFE_ZONE : ℚ) * scale_y)
  let left := pyInt ((LEFT_SAFE_ZONE : ℚ) * scale_x)
  let right := video_width - pyInt ((RIGHT_SAFE_ZONE : ℚ) * scale_x)
  { top := top, bottom := bottom, left := left, right := right,
    width := right - left, height := bottom - top }

/-- Square structuring element of radius r: the offset window of the PIL
    MinFilter and MaxFilter of size 2r+1 used in caption_creator.py lines 272
    to 275. -/
def sqWin (r : ℕ) : Finset (ℤ × ℤ) :=
  (Finset.Icc (-(r : ℤ)) (r : ℤ)) ×ˢ (Finset.Icc (-(r : ℤ)) (r : ℤ))

/-- Support of a MaxFilter of size 2r+1 applied to a mask: a pixel is set iff
    some pixel of the window around it is set. -/
def dilate (r : ℕ) (M : Finset (ℤ × ℤ)) : Finset (ℤ × ℤ) :=
  M.biUnion (fun p => (sqWin r).image (fun d => (p.1 + d.1, p.2 + d.2)))

/-- Support of a MinFilter of size 2r+1 applied to a mask: a pixel is set iff
    every pixel of the window around it is set. -/
def erode (r : ℕ) (M : Finset (ℤ × ℤ)) : Finset (ℤ × ℤ) :=
  M.filter (fun p => ∀ d ∈ sqWin r, (p.1 + d.1, p.2 + d.2) ∈ M)

/-- Stroke mask pipeline of caption_creator.py lines 272 to 275: erode the
    ink mask with radius cornerRadius, then dilate the eroded mask with
    radius cornerRadius + strokeWidth. -/
def strokeMask (cornerRadius strokeWidth : ℕ) (M : Finset (ℤ × ℤ)) :
    Finset (ℤ × ℤ) :=
  dilate (cornerRadius + strokeWidth) (erode cornerRadius M)

/-- Helper: pyInt agrees with the floor on nonnegative arguments. -/
theorem pyInt_eq_floor {q : ℚ} (hq : 0 ≤ q) : pyInt q = ⌊q⌋ := if_pos hq

/-- Helper: pyInt of a nonnegative rational is below the argument. -/
theorem pyInt_cast_le {q : ℚ} (hq : 0 ≤ q) : (pyInt q : ℚ) ≤ q := by
  rw [pyInt_eq_floor hq]; exact Int.floor_le q

/-- Helper: the argument is below pyInt plus one, on nonnegative arguments. -/
theorem pyInt_lt_add_one {q : ℚ} (hq : 0 ≤ q) : q < (pyInt q : ℚ) + 1 := by
  rw [pyInt_eq_floor hq]; exact_mod_cast Int.lt_floor_add_one q

/-- Helper: pyInt of a nonnegative rational is nonnegative. -/
theorem pyInt_nonneg {q : ℚ} (hq : 0 ≤ q) : 0 ≤ pyInt q := by
  rw [pyInt_eq_floor hq]; exact Int.floor_nonneg.mpr hq

/-- C9. Safe-zone bottom placement: for every video width, video height,
    caption height and padding, get_caption_position with intent "bottom"
    returns y equal to videoH minus int(756 times videoH over 1920) minus
    captionH minus padding; in particular (1080, 1920, 100, "bottom", 20)
    yields y = 1044. -/
theorem caption_position_bottom :
    (∀ w h ch p : ℤ, get_caption_position w h ch "bottom" p =
      ("center", h - pyInt ((756 * h : ℤ) / (1920 : ℚ)) - ch - p)) ∧
    get_caption_position 1080 1920 100 "bottom" 20 = ("center", 1044) := by
  constructor
  · intro w h ch p
    simp only [get_caption_position, STANDARD_HEIGHT, TOP_SAFE_ZONE, BOTTOM_SAFE_ZONE]
    rw [if_neg (by decide), if_neg (by decide)]
    norm_num [mul_div_assoc]
  · simp only [get_caption_position, STANDARD_HEIGHT, TOP_SAFE_ZONE, BOTTOM_SAFE_ZONE]
    rw [if_neg (by decide), if_neg (by decide)]
    norm_num [pyInt]

/-- C10. Implicit safe-area positivity: for every video width and height at
    least 1, get_safe_area_bounds returns bounds with 0 ≤ top < bottom ≤
    height and 0 ≤ left < right ≤ width, hence strictly positive safe-area
    width and height. -/
theorem safe_area_bounds_positive :
    ∀ w h : ℤ, 1 ≤ w → 1 ≤ h →
    0 ≤ (get_safe_area_bounds w h).top ∧
    (get_safe_area_bounds w h).top < (get_safe_area_bounds w h).bottom ∧
    (get_safe_area_bounds w h).bottom ≤ h ∧
    0 ≤ (get_safe_area_bounds w h).left ∧
    (get_safe_area_bounds w h).left < (get_safe_area_bounds w h).right ∧
    (get_safe_area_bounds w h).right ≤ w ∧
    0 < (get_safe_area_bounds w h).width ∧
    0 < (get_safe_area_bounds w h).height := by
  intro w h hw hh
  have hwq : (1 : ℚ) ≤ (w : ℚ) := by exact_mod_cast hw
  have hhq : (1 : ℚ) ≤ (h : ℚ) := by exact_mod_cast hh
  simp only [get_safe_area_bounds, STANDARD_WIDTH, STANDARD_HEIGHT,
    TOP_SAFE_ZONE, BOTTOM_SAFE_ZONE, LEFT_SAFE_ZONE, RIGHT_SAFE_ZONE]
  push_cast
  have hT0 : (0 : ℚ) ≤ 252 * ((h : ℚ) / 1920) := by positivity
  have hB0 : (0 : ℚ) ≤ 756 * ((h : ℚ) / 1920) := by positivity
  have hL0 : (0 : ℚ) ≤ 120 * ((w : ℚ) / 1080) := by positivity
  have hR0 : (0 : ℚ) ≤ 240 * ((w : ℚ) / 1080) := by positivity
  have hT1 := pyInt_cast_le hT0
  have hB1 := pyInt_cast_le hB0
  have hL1 := pyInt_cast_le hL0
  have hR1 := pyInt_cast_le hR0
  have hT2 := pyInt_nonneg hT0
  have hB2 := pyInt_nonneg hB0
  have hL2 := pyInt_nonneg hL0
  have hR2 := pyInt_nonneg hR0
  have hy : pyInt (252 * ((h : ℚ) / 1920)) + pyInt (756 * ((h : ℚ) / 1920)) < h := by
    have : ((pyInt (252 * ((h : ℚ) / 1920)) : ℚ)) + (pyInt (756 * ((h : ℚ) / 1920)) : ℚ)
        < (h : ℚ) := by
      have : 252 * ((h : ℚ) / 1920) + 756 * ((h : ℚ) / 1920) < (h : ℚ) := by
        rw [div_eq_mul_inv]; nlinarith
      linarith
    exact_mod_cast this
  have hx : pyInt (120 * ((w : ℚ) / 1080)) + pyInt (240 * ((w : ℚ) / 1080)) < w := by
    have : ((pyInt (120 * ((w : ℚ) / 1080)) : ℚ)) + (pyInt (240 * ((w : ℚ) / 1080)) : ℚ)
        < (w : ℚ) := by
      have : 120 * ((w : ℚ) / 1080) + 240 * ((w : ℚ) / 1080) < (w : ℚ) := by
        rw [div_eq_mul_inv]; nlinarith
      linarith
    exact_mod_cast this
  refine ⟨hT2, by omega, by omega, hL2, by omega, by omega, by omega, by omega⟩

/-- Closed witness for the safe-area positivity theorem at 1080 by 1920. -/
theorem safe_area_bounds_positive_witness :
    0 < (get_safe_area_bounds 1080 1920).width ∧
    0 < (get_safe_area_bounds 1080 1920).height :=
  ⟨(safe_area_bounds_positive 1080 1920 (by norm_num) (by norm_num)).2.2.2.2.2.2.1,
   (safe_area_bounds_positive 1080 1920 (by norm_num) (by norm_num)).2.2.2.2.2.2.2⟩

/-- C6 counterexample. With a font environment in which loading fails, the
    code returns the fallback width 96 for the text "HI" at size 80 instead
    of surfacing an error, contradicting the claimed fatal propagation. -/
theorem font_fallback_counterexample :
    get_text_width (fun _ _ => none) "HI" "missing.ttf" 80 = 96 ∧
    get_text_width_spec (fun _ _ => none) "HI" "missing.ttf" 80 =
      Except.error "FontUnavailable" ∧
    Except.ok (get_text_width (fun _ _ => none) "HI" "missing.ttf" 80) ≠
      get_text_width_spec (fun _ _ => none) "HI" "missing.ttf" 80 := by
  have h1 : get_text_width (fun _ _ => none) "HI" "missing.ttf" 80 = 96 := by
    simp only [get_text_width]
    norm_num [String.length]
  exact ⟨h1, rfl, by rw [h1]; simp [get_text_width_spec]⟩

/-- C6 amended. When the font cannot be loaded, get_text_width recovers with
    the fallback estimate len(text) times font_size times 0.6 rather than
    propagating an error to the caller. -/
theorem font_fallback_width :
    ∀ (env : FontEnv) (text font_path : String) (font_size : ℚ),
      env font_path font_size = none →
      get_text_width env text font_path font_size =
        (text.length : ℚ) * font_size * (6/10) := by
  intro env text fp fs hnone
  simp [get_text_width, hnone]

/-- Closed witness for the font fallback theorem. -/
theorem font_fallback_width_witness :
    get_text_width (fun _ _ => none) "HI" "missing.ttf" 80 =
      ("HI".length : ℚ) * 80 * (6/10) :=
  font_fallback_width (fun _ _ => none) "HI" "missing.ttf" 80 rfl

/-- Helper: the post-run record list of the grouping loop is the pointwise
    in-place normalization of the consumed records. -/
theorem groupLoop_post (P : GroupParams) :
    ∀ (ws : List WordRec) (groups : List CaptionGroup) (cur : List WordRec),
    (groupLoop P ws groups cur).2.1 = ws.map (fun w =>
      if pyUpper (pyStrip w.word) = "" then w
      else { w with word := pyUpper (pyStrip w.word) }) := by
  intro ws
  induction ws with
  | nil => intro groups cur; simp [groupLoop]
  | cons w rest ih =>
    intro groups cur
    simp only [groupLoop, List.map_cons]
    by_cases h1 : pyUpper (pyStrip w.word) = ""
    · simp [h1, ih]
    · simp only [h1, if_neg h1, ite_false]
      by_cases h2 : cur = []
      · simp [h2, ih]
      · simp only [h2, ite_false]
        split
        · simp [ih]
        · simp [ih]

/-- C5 counterexample. Running the grouper over a record whose word is "hi"
    leaves that record with word "HI": the input record is mutated, so the
    claimed immutability of the word field fails. -/
theorem word_record_mutation_counterexample :
    group_words_post ⟨fun _ _ => none, 1, 1000, "f.ttf", 10, 3, 1⟩
        [{ word := "hi", start := 0, end_ := 1 }] =
      [{ word := "HI", start := 0, end_ := 1 }] ∧
    ¬ group_words_post ⟨fun _ _ => none, 1, 1000, "f.ttf", 10, 3, 1⟩
        [{ word := "hi", start := 0, end_ := 1 }] =
      [{ word := "hi", start := 0, end_ := 1 }] := by
  constructor
  · rw [group_words_post, if_neg (by decide), groupLoop_post]
    decide
  · rw [group_words_post, if_neg (by decide), groupLoop_post]
    decide

/-- C5 amended. The grouper never changes any record start or end time and
    never adds or removes records; it overwrites the word field of each
    record whose stripped text is nonempty with the stripped upper-cased
    text, leaving whitespace-only words unchanged. -/
theorem word_record_times_preserved :
    ∀ (P : GroupParams) (input : List WordRec),
    (group_words_post P input).map (·.start) = input.map (·.start) ∧
    (group_words_post P input).map (·.end_) = input.map (·.end_) ∧
    (group_words_post P input).map (·.word) = input.map (fun w =>
      if pyUpper (pyStrip w.word) = "" then w.word
      else pyUpper (pyStrip w.word)) := by
  intro P input
  rcases eq_or_ne input [] with h | h
  · subst h; simp [group_words_post]
  · rw [group_words_post, if_neg h, groupLoop_post]
    refine ⟨?_, ?_, ?_⟩ <;>
      simp [List.map_map, Function.comp_def, apply_ite WordRec.start,
        apply_ite WordRec.end_, apply_ite WordRec.word]

/-- Helper: the flattened words of the emitted groups extend the already
    emitted words by the current group and the normalized kept remainder. -/
theorem groupLoop_flatten (P : GroupParams) :
    ∀ (ws : List WordRec) (groups : List CaptionGroup) (cur : List WordRec),
    ((groupLoop P ws groups cur).1.map (·.words)).flatten =
      (groups.map (·.words)).flatten ++ cur ++
        ((ws.filter (fun w => pyUpper (pyStrip w.word) ≠ "")).map
          (fun w => { w with word := pyUpper (pyStrip w.word) })) := by
  intro ws
  induction ws with
  | nil =>
    intro groups cur
    by_cases h2 : cur = []
    · simp [groupLoop, h2]
    · simp [groupLoop, h2, mkGroup]
  | cons w rest ih =>
    intro groups cur
    simp only [groupLoop]
    by_cases h1 : pyUpper (pyStrip w.word) = ""
    · simp [h1, ih, List.filter_cons]
    · simp only [h1, if_neg h1, ite_false]
      by_cases h2 : cur = []
      · subst h2
        simp [ih, List.filter_cons, h1]
      · simp only [h2, ite_false]
        split
        · simp [ih, List.filter_cons, h1, List.append_assoc]
        · simp [ih, List.filter_cons, h1, mkGroup, List.append_assoc]

/-- C1. Grouping exhaustiveness: concatenating the words fields of all
    emitted caption groups, in order, yields exactly the input records with
    whitespace-only words discarded, each kept record carrying its in-place
    normalized (stripped, upper-cased) word and its original start and end:
    no loss, no duplication, no reordering. -/
theorem grouping_exhaustive :
    ∀ (P : GroupParams) (input : List WordRec),
    ((group_words_by_time_and_width P input).map (·.words)).flatten =
      (input.filter (fun w => pyUpper (pyStrip w.word) ≠ "")).map
        (fun w => { w with word := pyUpper (pyStrip w.word) }) := by
  intro P input
  rcases eq_or_ne input [] with h | h
  · subst h; simp [group_words_by_time_and_width]
  · rw [group_words_by_time_and_width, if_neg h, groupLoop_flatten]
    simp

/-- Helper: the flattened words of the wrapped lines extend the words already
    placed by the pending line and the measured remaining parts. -/
theorem wrapLoop_flatten (font : Font) (sw cw lh ls : ℚ) :
    ∀ (parts : List (String × String)) (lines : List (List LineWord × ℚ))
      (th : ℚ) (cur : List LineWord) (clw : ℚ),
    ((wrapLoop font sw cw lh ls parts lines th cur clw).1.map Prod.fst).flatten =
      (lines.map Prod.fst).flatten ++ cur ++
        parts.map (fun pc => ⟨pc.1, pc.2, font pc.1⟩) := by
  intro parts
  induction parts with
  | nil =>
    intro lines th cur clw
    by_cases h2 : cur = []
    · simp [wrapLoop, h2]
    · simp [wrapLoop, h2]
  | cons p rest ih =>
    obtain ⟨word, color⟩ := p
    intro lines th cur clw
    simp only [wrapLoop]
    split
    · simp [ih, List.append_assoc]
    · simp [ih, List.append_assoc]

/-- C7. Overlong single word: the wrapping loop places every caption part on
    exactly one line, in order, never dropping or truncating a word; in
    particular a single word measured wider than the budget still comes out
    as its own line with its full text. -/
theorem wrap_places_every_word :
    (∀ (font : Font) (sw cw lh ls : ℚ) (parts : List (String × String)),
      (((wrap_lines font sw cw lh ls parts).1.map Prod.fst).flatten.map
        (fun lw => (lw.word, lw.color))) = parts) ∧
    (∀ (font : Font) (sw cw lh ls : ℚ) (word color : String),
      font word > cw →
      wrap_lines font sw cw lh ls [(word, color)] =
        ([([⟨word, color, font word⟩], font word)], lh)) := by
  constructor
  · intro font sw cw lh ls parts
    rw [wrap_lines, wrapLoop_flatten]
    simp [List.map_map, Function.comp_def]
  · intro font sw cw lh ls word color _
    simp [wrap_lines, wrapLoop]

/-- Closed witness for the wrapping theorem: a word of width 100 against a
    budget of 50 still occupies its own line. -/
theorem wrap_places_every_word_witness :
    wrap_lines (fun _ => 100) 5 50 20 4 [("WIDE", "white")] =
      ([([⟨"WIDE", "white", 100⟩], 100)], 20) :=
  wrap_places_every_word.2 (fun _ => 100) 5 50 20 4 "WIDE" "white" (by norm_num)

/-- C3 counterexample. At width 2, height 1 the wide branch truncates the new
    width to int(1 * 9/16) = 0 and returns the empty rectangle (1, 0, 1, 1),
    so the claimed x2 > x1 fails for these positive dimensions. -/
theorem crop_dimensions_claim_counterexample :
    calculate_crop_dimensions 2 1 (9/16) = (1, 0, 1, 1) ∧
    ¬ ((calculate_crop_dimensions 2 1 (9/16)).1 <
        (calculate_crop_dimensions 2 1 (9/16)).2.2.1) := by
  have hnw : pyInt ((1 : ℚ) * (9/16)) = 0 := by
    rw [pyInt_eq_floor (by norm_num)]; norm_num
  have h : calculate_crop_dimensions 2 1 (9/16) = (1, 0, 1, 1) := by
    simp only [calculate_crop_dimensions]
    rw [if_pos (by norm_num)]
    push_cast
    rw [hnw]
    norm_num
  exact ⟨h, by rw [h]; decide⟩

/-- C3 amended. For all integer dimensions at least 47 by 47, the crop
    rectangle returned by calculate_crop_dimensions for target 9/16 is
    nonempty, lies within the source bounds, and its aspect ratio is within
    the 0.02 tolerance of 9/16; in particular 1920 by 1080 yields the
    rectangle (656, 0, 1263, 1080). -/
theorem crop_dimensions_valid :
    (∀ w h x1 y1 x2 y2 : ℤ, 47 ≤ w → 47 ≤ h →
      calculate_crop_dimensions w h (9/16) = (x1, y1, x2, y2) →
      0 ≤ x1 ∧ x1 < x2 ∧ x2 ≤ w ∧ 0 ≤ y1 ∧ y1 < y2 ∧ y2 ≤ h ∧
      |((x2 - x1 : ℤ) : ℚ) / ((y2 - y1 : ℤ) : ℚ) - 9/16| ≤ 2/100) ∧
    calculate_crop_dimensions 1920 1080 (9/16) = (656, 0, 1263, 1080) := by
  constructor
  · intro w h x1 y1 x2 y2 hw hh heq
    have hwq : (47 : ℚ) ≤ (w : ℚ) := by exact_mod_cast hw
    have hhq : (47 : ℚ) ≤ (h : ℚ) := by exact_mod_cast hh
    have hw0 : (0 : ℚ) < (w : ℚ) := by linarith
    have hh0 : (0 : ℚ) < (h : ℚ) := by linarith
    by_cases hr : (w : ℚ) / (h : ℚ) > 9/16
    · -- wide branch: crop the width
      simp only [calculate_crop_dimensions] at heq
      rw [if_pos hr, Int.fdiv_eq_ediv _ (by norm_num)] at heq
      simp only [Prod.mk.injEq] at heq
      obtain ⟨hx1, hy1, hx2, hy2⟩ := heq
      have hq0 : (0 : ℚ) ≤ (h : ℚ) * (9/16) := by positivity
      have hle := pyInt_cast_le hq0
      have hgt := pyInt_lt_add_one hq0
      have h16 : 16 * pyInt ((h : ℚ) * (9/16)) ≤ 9 * h := by
        have : (16 : ℚ) * (pyInt ((h : ℚ) * (9/16)) : ℚ) ≤ 9 * h := by linarith
        exact_mod_cast this
      have h16b : 9 * h < 16 * pyInt ((h : ℚ) * (9/16)) + 16 := by
        have : (9 : ℚ) * h < 16 * (pyInt ((h : ℚ) * (9/16)) : ℚ) + 16 := by linarith
        exact_mod_cast this
      have hnwlt : pyInt ((h : ℚ) * (9/16)) < w := by
        have hwgt : (9/16 : ℚ) * h < w := by
          have := (lt_div_iff hh0).mp hr
          linarith
        have : (pyInt ((h : ℚ) * (9/16)) : ℚ) < (w : ℚ) := by linarith
        exact_mod_cast this
      subst hx1 hy1 hx2 hy2
      have hnw26 : 26 ≤ pyInt ((h : ℚ) * (9/16)) := by omega
      refine ⟨by omega, by omega, by omega, by omega, by omega, by omega, ?_⟩
      have hxx : (w - pyInt ((h : ℚ) * (9/16))) / 2 + pyInt ((h : ℚ) * (9/16)) -
          (w - pyInt ((h : ℚ) * (9/16))) / 2 = pyInt ((h : ℚ) * (9/16)) := by ring
      rw [hxx]
      have hyy : (h : ℤ) - 0 = h := by ring
      rw [hyy]
      have hratio_le : ((pyInt ((h : ℚ) * (9/16)) : ℤ) : ℚ) / (h : ℚ) ≤ 9/16 := by
        rw [div_le_iff hh0]; linarith
      rw [abs_of_nonpos (by linarith)]
      have hkey : (217 : ℤ) * h ≤ 400 * pyInt ((h : ℚ) * (9/16)) := by omega
      have hkeyq : (217 : ℚ) * h ≤ 400 * (pyInt ((h : ℚ) * (9/16)) : ℚ) := by
        exact_mod_cast hkey
      have : (217 : ℚ) / 400 ≤ ((pyInt ((h : ℚ) * (9/16)) : ℤ) : ℚ) / (h : ℚ) := by
        rw [le_div_iff hh0]; linarith
      linarith
    · -- tall branch: crop the height
      simp only [calculate_crop_dimensions] at heq
      rw [if_neg hr, Int.fdiv_eq_ediv _ (by norm_num)] at heq
      simp only [Prod.mk.injEq] at heq
      obtain ⟨hx1, hy1, hx2, hy2⟩ := heq
      have hq0 : (0 : ℚ) ≤ (w : ℚ) / (9/16) := by positivity
      have hle := pyInt_cast_le hq0
      have hgt := pyInt_lt_add_one hq0
      have h9 : 9 * pyInt ((w : ℚ) / (9/16)) ≤ 16 * w := by
        have : (9 : ℚ) * (pyInt ((w : ℚ) / (9/16)) : ℚ) ≤ 16 * w := by linarith
        exact_mod_cast this
      have h9b : 16 * w < 9 * pyInt ((w : ℚ) / (9/16)) + 9 := by
        have : (16 : ℚ) * w < 9 * (pyInt ((w : ℚ) / (9/16)) : ℚ) + 9 := by linarith
        exact_mod_cast this
      have hwh : 16 * w ≤ 9 * h := by
        have hq : (w : ℚ) / (h : ℚ) ≤ 9/16 := le_of_not_lt hr
        have : (16 : ℚ) * w ≤ 9 * h := by
          have := (div_le_iff hh0).mp hq
          linarith
        exact_mod_cast this
      have hnhh : pyInt ((w : ℚ) / (9/16)) ≤ h := by omega
      subst hx1 hy1 hx2 hy2
      have hnh83 : 83 ≤ pyInt ((w : ℚ) / (9/16)) := by omega
      refine ⟨by omega, by omega, by omega, by omega, by omega, by omega, ?_⟩
      have hxx : (w : ℤ) - 0 = w := by ring
      rw [hxx]
      have hyy : (h - pyInt ((w : ℚ) / (9/16))) / 2 + pyInt ((w : ℚ) / (9/16)) -
          (h - pyInt ((w : ℚ) / (9/16))) / 2 = pyInt ((w : ℚ) / (9/16)) := by ring
      rw [hyy]
      have hnh0 : (0 : ℚ) < ((pyInt ((w : ℚ) / (9/16)) : ℤ) : ℚ) := by
        have : (0 : ℤ) < pyInt ((w : ℚ) / (9/16)) := by omega
        exact_mod_cast this
      have hratio_ge : (9/16 : ℚ) ≤ (w : ℚ) / ((pyInt ((w : ℚ) / (9/16)) : ℤ) : ℚ) := by
        rw [le_div_iff hnh0]
        have : (9 : ℚ) * (pyInt ((w : ℚ) / (9/16)) : ℚ) ≤ 16 * w := by exact_mod_cast h9
        linarith
      rw [abs_of_nonneg (by linarith)]
      have hkey : (400 : ℤ) * w ≤ 233 * pyInt ((w : ℚ) / (9/16)) := by omega
      have hkeyq : (400 : ℚ) * w ≤ 233 * (pyInt ((w : ℚ) / (9/16)) : ℚ) := by
        exact_mod_cast hkey
      have : (w : ℚ) / ((pyInt ((w : ℚ) / (9/16)) : ℤ) : ℚ) ≤ 233/400 := by
        rw [div_le_iff hnh0]; linarith
      linarith
  · -- the concrete 1920 by 1080 instance
    have hnw : pyInt ((1080 : ℚ) * (9/16)) = 607 := by
      rw [pyInt_eq_floor (by norm_num)]; norm_num
    simp only [calculate_crop_dimensions]
    rw [if_pos (by norm_num)]
    push_cast
    rw [hnw]
    norm_num
    decide

/-- Closed witness for the amended crop theorem, applied at 1920 by 1080. -/
theorem crop_dimensions_valid_witness :
    0 ≤ (656 : ℤ) ∧ (656 : ℤ) < 1263 ∧ (1263 : ℤ) ≤ 1920 ∧ 0 ≤ (0 : ℤ) ∧
    (0 : ℤ) < 1080 ∧ (1080 : ℤ) ≤ 1080 ∧
    |((1263 - 656 : ℤ) : ℚ) / ((1080 - 0 : ℤ) : ℚ) - 9/16| ≤ 2/100 :=
  crop_dimensions_valid.1 1920 1080 656 0 1263 1080 (by norm_num) (by norm_num)
    crop_dimensions_valid.2

/-- Helper: membership in the square structuring element. -/
theorem mem_sqWin {r : ℕ} {d : ℤ × ℤ} :
    d ∈ sqWin r ↔ -(r : ℤ) ≤ d.1 ∧ d.1 ≤ r ∧ -(r : ℤ) ≤ d.2 ∧ d.2 ≤ r := by
  simp [sqWin, Finset.mem_product, Finset.mem_Icc, and_assoc]

/-- Helper: membership in a dilated mask. -/
theorem mem_dilate {r : ℕ} {M : Finset (ℤ × ℤ)} {p : ℤ × ℤ} :
    p ∈ dilate r M ↔ ∃ q ∈ M, ∃ d ∈ sqWin r, (q.1 + d.1, q.2 + d.2) = p := by
  simp [dilate]

/-- Helper: membership in an eroded mask. -/
theorem mem_erode {r : ℕ} {M : Finset (ℤ × ℤ)} {p : ℤ × ℤ} :
    p ∈ erode r M ↔ p ∈ M ∧ ∀ d ∈ sqWin r, (p.1 + d.1, p.2 + d.2) ∈ M := by
  simp [erode]

/-- Helper: one step of corner radius growth shrinks the stroke mask. -/
theorem strokeMask_succ_subset (r s : ℕ) (M : Finset (ℤ × ℤ)) :
    strokeMask (r + 1) s M ⊆ strokeMask r s M := by
  intro p hp
  rw [strokeMask] at hp ⊢
  obtain ⟨q, hq, d, hd, hpd⟩ := mem_dilate.mp hp
  rw [mem_erode] at hq
  obtain ⟨hqM, hqall⟩ := hq
  rw [mem_sqWin] at hd
  have hr1 : ((r + 1 + s : ℕ) : ℤ) = (r : ℤ) + 1 + s := by push_cast; ring
  rw [hr1] at hd
  refine mem_dilate.mpr ⟨(q.1 + max (-1) (min 1 d.1), q.2 + max (-1) (min 1 d.2)),
    ?_, (d.1 - max (-1) (min 1 d.1), d.2 - max (-1) (min 1 d.2)), ?_, ?_⟩
  · rw [mem_erode]
    constructor
    · have := hqall (max (-1) (min 1 d.1), max (-1) (min 1 d.2))
        (mem_sqWin.mpr (by constructor <;> [skip; constructor] <;>
          [skip; skip; constructor] <;> simp <;> push_cast <;> omega))
      exact this
    · intro g hg
      rw [mem_sqWin] at hg
      have hmem : ((max (-1) (min 1 d.1)) + g.1, (max (-1) (min 1 d.2)) + g.2) ∈
          sqWin (r + 1) := by
        rw [mem_sqWin]
        push_cast
        constructor
        · omega
        constructor
        · omega
        constructor
        · omega
        · omega
      have := hqall _ hmem
      simpa [add_assoc] using this
  · rw [mem_sqWin]
    push_cast
    constructor
    · omega
    constructor
    · omega
    constructor
    · omega
    · omega
  · have h1 : q.1 + max (-1) (min 1 d.1) + (d.1 - max (-1) (min 1 d.1)) = q.1 + d.1 := by
      ring
    have h2 : q.2 + max (-1) (min 1 d.2) + (d.2 - max (-1) (min 1 d.2)) = q.2 + d.2 := by
      ring
    rw [h1, h2]
    exact hpd

/-- Helper: any corner radius growth shrinks the stroke mask. -/
theorem strokeMask_add_subset (s : ℕ) (M : Finset (ℤ × ℤ)) (r k : ℕ) :
    strokeMask (r + k) s M ⊆ strokeMask r s M := by
  induction k with
  | zero => exact fun p hp => hp
  | succ n ih => exact fun p hp => ih (strokeMask_succ_subset (r + n) s M hp)

/-- C8 counterexample. For the single-pixel ink mask with strokeWidth 0,
    raising cornerRadius from 0 to 1 erodes the mask to nothing, so the area
    drops from 1 to 0: increasing cornerRadius can decrease the area. -/
theorem stroke_area_counterexample :
    (strokeMask 0 0 {((0 : ℤ), (0 : ℤ))}).card = 1 ∧
    (strokeMask 1 0 {((0 : ℤ), (0 : ℤ))}).card = 0 ∧
    ¬ ((strokeMask 0 0 {((0 : ℤ), (0 : ℤ))}).card ≤
        (strokeMask 1 0 {((0 : ℤ), (0 : ℤ))}).card) := by
  refine ⟨?_, ?_, ?_⟩ <;> decide

/-- C8 amended. For every ink mask and fixed strokeWidth, increasing the
    cornerRadius never increases the area (number of set pixels) of the
    stroke mask produced by the erode-then-dilate pipeline. -/
theorem stroke_area_antitone :
    ∀ (M : Finset (ℤ × ℤ)) (strokeWidth r r' : ℕ), r ≤ r' →
      (strokeMask r' strokeWidth M).card ≤ (strokeMask r strokeWidth M).card := by
  intro M s r r' h
  obtain ⟨k, rfl⟩ := Nat.exists_eq_add_of_le h
  exact Finset.card_le_card (strokeMask_add_subset s M r k)

/-- Closed witness for the stroke-area antitonicity theorem. -/
theorem stroke_area_antitone_witness :
    (strokeMask 1 0 {((0 : ℤ), (0 : ℤ))}).card ≤
      (strokeMask 0 0 {((0 : ℤ), (0 : ℤ))}).card :=
  stroke_area_antitone {((0 : ℤ), (0 : ℤ))} 0 0 1 (by decide)

/-- Helper: flushing the loop with an empty pending group emits nothing. -/
theorem groupLoop_one_nil (P : GroupParams) (groups : List CaptionGroup)
    (cur : List WordRec) :
    (groupLoop P [] groups cur).1 =
      if cur = [] then groups else groups ++ [mkGroup cur] := rfl

/-- Helper: a whitespace-only word is skipped by the loop. -/
theorem groupLoop_one_skip (P : GroupParams) (w : WordRec) (rest : List WordRec)
    (groups : List CaptionGroup) (cur : List WordRec)
    (h : pyUpper (pyStrip w.word) = "") :
    (groupLoop P (w :: rest) groups cur).1 = (groupLoop P rest groups cur).1 := by
  simp only [groupLoop]
  rw [if_pos h]

/-- Helper: a kept word starts the group when the pending group is empty. -/
theorem groupLoop_one_first (P : GroupParams) (w : WordRec) (rest : List WordRec)
    (groups : List CaptionGroup) (h : pyUpper (pyStrip w.word) ≠ "") :
    (groupLoop P (w :: rest) groups []).1 =
      (groupLoop P rest groups [{ w with word := pyUpper (pyStrip w.word) }]).1 := by
  simp only [groupLoop]
  rw [if_neg h]
  simp

/-- Helper: the admission step of the loop under the four guards. -/
theorem groupLoop_one_accept (P : GroupParams) (w : WordRec) (rest : List WordRec)
    (groups : List CaptionGroup) (cur : List WordRec) (hcur : cur ≠ [])
    (h : pyUpper (pyStrip w.word) ≠ "")
    (hcond : cur.length < P.max_words_per_group ∧
      w.start - (cur.getLastD default).end_ ≤ P.max_gap_seconds ∧
      get_text_width P.env (String.intercalate " "
          (cur.map (·.word) ++ [pyUpper (pyStrip w.word)])) P.font_path P.font_size ≤
        P.max_width_px ∧
      (cur.getLastD default).end_ - (cur.headD default).start ≤
        P.max_caption_duration_seconds) :
    (groupLoop P (w :: rest) groups cur).1 =
      (groupLoop P rest groups
        (cur ++ [{ w with word := pyUpper (pyStrip w.word) }])).1 := by
  simp only [groupLoop]
  rw [if_neg h, if_neg hcur, if_pos hcond]

/-- Helper: the emission step of the loop when some guard fails. -/
theorem groupLoop_one_emit (P : GroupParams) (w : WordRec) (rest : List WordRec)
    (groups : List CaptionGroup) (cur : List WordRec) (hcur : cur ≠ [])
    (h : pyUpper (pyStrip w.word) ≠ "")
    (hcond : ¬ (cur.length < P.max_words_per_group ∧
      w.start - (cur.getLastD default).end_ ≤ P.max_gap_seconds ∧
      get_text_width P.env (String.intercalate " "
          (cur.map (·.word) ++ [pyUpper (pyStrip w.word)])) P.font_path P.font_size ≤
        P.max_width_px ∧
      (cur.getLastD default).end_ - (cur.headD default).start ≤
        P.max_caption_duration_seconds)) :
    (groupLoop P (w :: rest) groups cur).1 =
      (groupLoop P rest (groups ++ [mkGroup cur])
        [{ w with word := pyUpper (pyStrip w.word) }]).1 := by
  simp only [groupLoop]
  rw [if_neg h, if_neg hcur, if_neg hcond]

/-- C2. Greedy grouping rule: with a nonempty current group and a kept word,
    the loop admits the word iff group size, time gap, candidate width and
    duration guards all hold, otherwise it emits the current group (whose
    start and end are its first word start and last word end) and restarts
    with the word, flushing the open group at end of input; in particular the
    three-word scenario with maxWordsPerGroup 3 yields one group spanning
    0 to 1.2, and with maxWordsPerGroup 1 three single-word groups. -/
theorem grouping_greedy_rule :
    (∀ (P : GroupParams) (groups : List CaptionGroup) (cur : List WordRec)
        (w : WordRec) (rest : List WordRec),
      cur ≠ [] → pyUpper (pyStrip w.word) ≠ "" →
      ((cur.length < P.max_words_per_group ∧
        w.start - (cur.getLastD default).end_ ≤ P.max_gap_seconds ∧
        get_text_width P.env (String.intercalate " "
            (cur.map (·.word) ++ [pyUpper (pyStrip w.word)])) P.font_path P.font_size ≤
          P.max_width_px ∧
        (cur.getLastD default).end_ - (cur.headD default).start ≤
          P.max_caption_duration_seconds) →
        (groupLoop P (w :: rest) groups cur).1 =
          (groupLoop P rest groups
            (cur ++ [{ w with word := pyUpper (pyStrip w.word) }])).1) ∧
      (¬ (cur.length < P.max_words_per_group ∧
        w.start - (cur.getLastD default).end_ ≤ P.max_gap_seconds ∧
        get_text_width P.env (String.intercalate " "
            (cur.map (·.word) ++ [pyUpper (pyStrip w.word)])) P.font_path P.font_size ≤
          P.max_width_px ∧
        (cur.getLastD default).end_ - (cur.headD default).start ≤
          P.max_caption_duration_seconds) →
        (groupLoop P (w :: rest) groups cur).1 =
          (groupLoop P rest (groups ++ [mkGroup cur])
            [{ w with word := pyUpper (pyStrip w.word) }]).1) ∧
      (groupLoop P [] groups cur).1 = groups ++ [mkGroup cur] ∧
      (mkGroup cur).start = (cur.headD default).start ∧
      (mkGroup cur).end_ = (cur.getLastD default).end_) ∧
    (∀ (env : FontEnv) (fp : String) (fs : ℚ),
      get_text_width env "I LOVE" fp fs ≤ 10000 →
      get_text_width env "I LOVE CODING" fp fs ≤ 10000 →
      group_words_by_time_and_width ⟨env, 2/10, 10000, fp, fs, 3, 5⟩
        [⟨"I", 0, 3/10⟩, ⟨"LOVE", 3/10, 7/10⟩, ⟨"CODING", 7/10, 6/5⟩] =
        [{ text := "I LOVE CODING",
           words := [⟨"I", 0, 3/10⟩, ⟨"LOVE", 3/10, 7/10⟩, ⟨"CODING", 7/10, 6/5⟩],
           start := 0, end_ := 6/5 }]) ∧
    (∀ (env : FontEnv) (fp : String) (fs : ℚ),
      group_words_by_time_and_width ⟨env, 2/10, 10000, fp, fs, 1, 5⟩
        [⟨"I", 0, 3/10⟩, ⟨"LOVE", 3/10, 7/10⟩, ⟨"CODING", 7/10, 6/5⟩] =
        [{ text := "I", words := [⟨"I", 0, 3/10⟩], start := 0, end_ := 3/10 },
         { text := "LOVE", words := [⟨"LOVE", 3/10, 7/10⟩], start := 3/10,
           end_ := 7/10 },
         { text := "CODING", words := [⟨"CODING", 7/10, 6/5⟩], start := 7/10,
           end_ := 6/5 }]) := by
  have hI : pyUpper (pyStrip "I") = "I" := by decide
  have hL : pyUpper (pyStrip "LOVE") = "LOVE" := by decide
  have hC : pyUpper (pyStrip "CODING") = "CODING" := by decide
  have hneI : ¬ (("I" : String) = "") := by decide
  have hneL : ¬ (("LOVE" : String) = "") := by decide
  have hneC : ¬ (("CODING" : String) = "") := by decide
  have hi1 : String.intercalate " " ["I", "LOVE"] = "I LOVE" := by decide
  have hi2 : String.intercalate " " ["I", "LOVE", "CODING"] = "I LOVE CODING" := by
    decide
  have hi0I : String.intercalate " " ["I"] = "I" := by decide
  have hi0L : String.intercalate " " ["LOVE"] = "LOVE" := by decide
  have hi0C : String.intercalate " " ["CODING"] = "CODING" := by decide
  refine ⟨?_, ?_, ?_⟩
  · intro P groups cur w rest hcur h
    exact ⟨groupLoop_one_accept P w rest groups cur hcur h,
      groupLoop_one_emit P w rest groups cur hcur h,
      by rw [groupLoop_one_nil, if_neg hcur], rfl, rfl⟩
  · intro env fp fs hw1 hw2
    rw [group_words_by_time_and_width, if_neg (by simp)]
    norm_num [groupLoop, mkGroup, hI, hL, hC, hneI, hneL, hneC, hi1, hi2, hw1, hw2]
    simp
  · intro env fp fs
    rw [group_words_by_time_and_width, if_neg (by simp)]
    norm_num [groupLoop, mkGroup, hI, hL, hC, hneI, hneL, hneC, hi0I, hi0L, hi0C]

/-- Closed witness for the greedy rule theorem: the first concrete scenario
    run with a font environment measuring every text at width zero. -/
theorem grouping_greedy_rule_witness :
    group_words_by_time_and_width
      ⟨fun _ _ => some (fun _ => 0), 2/10, 10000, "f.ttf", 80, 3, 5⟩
      [⟨"I", 0, 3/10⟩, ⟨"LOVE", 3/10, 7/10⟩, ⟨"CODING", 7/10, 6/5⟩] =
      [{ text := "I LOVE CODING",
         words := [⟨"I", 0, 3/10⟩, ⟨"LOVE", 3/10, 7/10⟩, ⟨"CODING", 7/10, 6/5⟩],
         start := 0, end_ := 6/5 }] :=
  grouping_greedy_rule.2.1 (fun _ _ => some (fun _ => 0)) "f.ttf" 80
    (by norm_num [get_text_width]) (by norm_num [get_text_width])

/-- Helper: concrete run showing the grouper measures the joined text
    "HI! YO", with the trailing punctuation of "hi!" retained. -/
theorem measured_concrete_eval :
    group_words_measured ⟨fun _ _ => some (fun _ => 0), 1, 10000, "f.ttf", 10, 3, 5⟩
      [⟨"hi!", 0, 1⟩, ⟨"yo", 1, 2⟩] = ["HI! YO"] := by
  have h1 : pyUpper (pyStrip "hi!") = "HI!" := by decide
  have h2 : pyUpper (pyStrip "yo") = "YO" := by decide
  have hne1 : ¬ (("HI!" : String) = "") := by decide
  have hne2 : ¬ (("YO" : String) = "") := by decide
  have hi : String.intercalate " " ["HI!", "YO"] = "HI! YO" := by decide
  rw [group_words_measured, if_neg (by simp)]
  norm_num [groupLoop, get_text_width, h1, h2, hne1, hne2, hi]

/-- C4 counterexample. In the two-word run the text passed to get_text_width
    is "HI! YO", which is not the punctuation-stripped upper-cased form of
    any input word (those are "HI" and "YO"), so width measurement is not
    performed on punctuation-stripped text. -/
theorem measured_text_punctuation_counterexample :
    group_words_measured ⟨fun _ _ => some (fun _ => 0), 1, 10000, "f.ttf", 10, 3, 5⟩
      [⟨"hi!", 0, 1⟩, ⟨"yo", 1, 2⟩] = ["HI! YO"] ∧
    ¬ (∀ t ∈ group_words_measured
        ⟨fun _ _ => some (fun _ => 0), 1, 10000, "f.ttf", 10, 3, 5⟩
        [⟨"hi!", 0, 1⟩, ⟨"yo", 1, 2⟩],
        ∃ w ∈ [(⟨"hi!", (0 : ℚ), (1 : ℚ)⟩ : WordRec), ⟨"yo", 1, 2⟩],
          t = clean_word w.word) := by
  refine ⟨measured_concrete_eval, ?_⟩
  rw [measured_concrete_eval]
  decide

/-- Helper: every text the grouping loop measures is a nonempty space join of
    strings satisfying any property enjoyed by the normalized pending and
    remaining words. -/
theorem groupLoop_measured (P : GroupParams) (Q : String → Prop) :
    ∀ (ws : List WordRec) (groups : List CaptionGroup) (cur : List WordRec),
      (∀ w ∈ ws, Q (pyUpper (pyStrip w.word))) →
      (∀ x ∈ cur, Q x.word) →
      ∀ t ∈ (groupLoop P ws groups cur).2.2,
        ∃ l : List String, l ≠ [] ∧ (∀ s ∈ l, Q s) ∧
          t = String.intercalate " " l := by
  intro ws
  induction ws with
  | nil =>
    intro groups cur _ _ t ht
    simp [groupLoop] at ht
  | cons w rest ih =>
    intro groups cur hQws hQcur t ht
    simp only [groupLoop] at ht
    by_cases h1 : pyUpper (pyStrip w.word) = ""
    · rw [if_pos h1] at ht
      exact ih groups cur (fun v hv => hQws v (List.mem_cons_of_mem _ hv)) hQcur t ht
    · rw [if_neg h1] at ht
      by_cases h2 : cur = []
      · rw [if_pos h2] at ht
        refine ih groups [{ w with word := pyUpper (pyStrip w.word) }]
          (fun v hv => hQws v (List.mem_cons_of_mem _ hv)) ?_ t ht
        intro x hx
        rw [List.mem_singleton] at hx
        subst hx
        exact hQws w (List.mem_cons_self w rest)
      · rw [if_neg h2] at ht
        have hQw : Q (pyUpper (pyStrip w.word)) := hQws w (List.mem_cons_self w rest)
        have hl : ∀ s ∈ cur.map (·.word) ++ [pyUpper (pyStrip w.word)], Q s := by
          intro s hs
          rcases List.mem_append.mp hs with hs | hs
          · obtain ⟨v, hv, rfl⟩ := List.mem_map.mp hs
            exact hQcur v hv
          · rw [List.mem_singleton] at hs
            subst hs
            exact hQw
        have hcur' : ∀ x ∈ cur ++ [{ w with word := pyUpper (pyStrip w.word) }],
            Q x.word := by
          intro x hx
          rcases List.mem_append.mp hx with hx | hx
          · exact hQcur x hx
          · rw [List.mem_singleton] at hx
            subst hx
            exact hQw
        have hsingle : ∀ x ∈ [{ w with word := pyUpper (pyStrip w.word) }],
            Q x.word := by
          intro x hx
          rw [List.mem_singleton] at hx
          subst hx
          exact hQw
        split at ht
        · rcases List.mem_cons.mp ht with h | h
          · exact ⟨cur.map (·.word) ++ [pyUpper (pyStrip w.word)], by simp, hl, h⟩
          · exact ih groups (cur ++ [{ w with word := pyUpper (pyStrip w.word) }])
              (fun v hv => hQws v (List.mem_cons_of_mem _ hv)) hcur' t h
        · rcases List.mem_cons.mp ht with h | h
          · exact ⟨cur.map (·.word) ++ [pyUpper (pyStrip w.word)], by simp, hl, h⟩
          · exact ih (groups ++ [mkGroup cur])
              [{ w with word := pyUpper (pyStrip w.word) }]
              (fun v hv => hQws v (List.mem_cons_of_mem _ hv)) hsingle t h

/-- C4 amended. Every text measured by get_text_width during grouping is the
    space join of one or more words that have been normalized by whitespace
    stripping and upper-casing only; punctuation is retained at measurement
    time (punctuation stripping happens later, in clean_word at render time). -/
theorem measured_text_normalized :
    ∀ (P : GroupParams) (input : List WordRec),
      ∀ t ∈ group_words_measured P input,
        ∃ l : List String, l ≠ [] ∧
          (∀ s ∈ l, ∃ w ∈ input, s = pyUpper (pyStrip w.word)) ∧
          t = String.intercalate " " l := by
  intro P input t ht
  rcases eq_or_ne input [] with h | h
  · subst h
    simp [group_words_measured] at ht
  · rw [group_words_measured, if_neg h] at ht
    exact groupLoop_measured P (fun s => ∃ w ∈ input, s = pyUpper (pyStrip w.word))
      input [] [] (fun w hw => ⟨w, hw, rfl⟩) (by simp) t ht

/-- Closed witness for the measured-text theorem at the concrete two-word
    run whose only measured text is "HI! YO". -/
theorem measured_text_normalized_witness :
    ∃ l : List String, l ≠ [] ∧
      (∀ s ∈ l, ∃ w ∈ [(⟨"hi!", (0 : ℚ), (1 : ℚ)⟩ : WordRec), ⟨"yo", 1, 2⟩],
        s = pyUpper (pyStrip w.word)) ∧
      "HI! YO" = String.intercalate " " l :=
  measured_text_normalized
    ⟨fun _ _ => some (fun _ => 0), 1, 10000, "f.ttf", 10, 3, 5⟩
    [⟨"hi!", 0, 1⟩, ⟨"yo", 1, 2⟩] "HI! YO"
    (by rw [measured_concrete_eval]; simp)
